import Mathlib

/-
Verification of the Brain Bender Daily render-and-publish pipeline.

The definitions below model the JavaScript sources of the repository
(src/index.js, src/server.js, src/unnamed/part_000 .. part_004).  JavaScript
strings are modelled as `List Char`.  The escaping claims additionally need a
model of the encoder's filter-graph grammar: ffmpeg tokenizes a filter
description with av_get_token (libavutil/avstring.c), once at the graph level
(terminators "[],;") and once more when each option value is extracted
(av_opt_get_key_value with pairs separator ":"); that documented two-pass
quoting/escaping discipline is reproduced by `avTokAux` below.
-/

/-- Whitespace set of ffmpeg's tokenizer (libavutil WHITESPACES = " \n\t\r"). -/
def wsB (c : Char) : Bool :=
  c = ' ' || c = '\n' || c = '\t' || c = '\r'

/-- Parser state of av_get_token's main loop: plain copying, inside a quoted
    section, or just after an unquoted backslash. -/
inductive AvSt
  | plain
  | quoted
  | escaped
deriving DecidableEq

/-- Model of ffmpeg's av_get_token(buf, term) main loop (libavutil/avstring.c).
    Outside quotes a backslash escapes the next character, a single quote opens a
    section copied verbatim up to the closing quote, and an unescaped unquoted
    terminator character ends the token.  Trailing unquoted unescaped whitespace
    is trimmed: `e` is the confirmed length (the C code's `end` pointer), and the
    final token is `out.take e`.  A backslash escaping a character (or standing
    at the very end) and a closing quote always confirm the output so far. -/
def avTokAux (term : List Char) : AvSt → List Char → List Char → Nat → List Char × List Char
  | .escaped, [], out, _ => (out ++ [ '\\'], [])
  | .plain, [], out, e => (out.take e, [])
  | .quoted, [], out, e => (out.take e, [])
  | .escaped, c :: rest, out, _ =>
    avTokAux term .plain rest (out ++ [c]) (out.length + 1)
  | .quoted, c :: rest, out, e =>
    if c = '\'' then avTokAux term .plain rest out out.length
    else avTokAux term .quoted rest (out ++ [c]) e
  | .plain, c :: rest, out, e =>
    if c ∈ term then (out.take e, c :: rest)
    else if c = '\\' then avTokAux term .escaped rest out e
    else if c = '\'' then avTokAux term .quoted rest out e
    else avTokAux term .plain rest (out ++ [c]) (if wsB c then e else out.length + 1)

/-- Model of av_get_token: skip leading whitespace, then run the main loop. -/
def avGetToken (term : List Char) (s : List Char) : List Char × List Char :=
  avTokAux term .plain (s.dropWhile wsB) [] 0

/-- Terminators used by ffmpeg's graph parser for a filter's argument string
    (parse_filter in libavfilter/graphparser.c: av_get_token(buf, "[],;")). -/
def filterTermChars : List Char := [ '[', ']', ',', ';']

/-- Terminators for a filter's name (av_get_token(buf, "=,;[")). -/
def nameTermChars : List Char := [ '=', ',', ';', '[']

/-- Model of parse_filter: read the filter name up to '=', then the option
    string with terminators "[],;"; returns (name, options, unconsumed rest). -/
def parseFilter (s : List Char) : List Char × List Char × List Char :=
  let n := avGetToken nameTermChars s
  match n.2 with
  | '=' :: r2 =>
    let o := avGetToken filterTermChars r2
    (n.1, o.1, o.2)
  | r => (n.1, [], r)

/-- Concatenation of per-character expansions; used to model JavaScript
    String.replace with a /g single-character pattern. -/
def encList (f : Char → List Char) : List Char → List Char
  | [] => []
  | c :: cs => f c ++ encList f cs

/-- JavaScript s.replace(/c/g, r) for a single-character pattern c: every
    occurrence of c is replaced by r, without rescanning the replacement. -/
def jsRep (c : Char) (r : List Char) (s : List Char) : List Char :=
  encList (fun x => if x = c then r else [x]) s

/-- src/index.js (first variant), line 98:
    esc = (text) => text.replace(/'/g, "\\'").replace(/:/g, '\\:').
    In JavaScript source "\\'" denotes the two characters backslash-quote and
    '\\:' the two characters backslash-colon. -/
def esc (text : List Char) : List Char :=
  jsRep ':' [ '\\', ':'] (jsRep '\'' [ '\\', '\''] text)

/-- src/index.js (second variant), lines 293-296: the `safe` value computed by
    dt: String(text).replace(/\\/g, "\\\\").replace(/'/g, "\\\\'")
    .replace(/:/g, "\\\\:"); the replacement strings denote the character
    sequences backslash-backslash, backslash-backslash-quote and
    backslash-backslash-colon. -/
def dtSafe (text : List Char) : List Char :=
  jsRep ':' [ '\\', '\\', ':']
    (jsRep '\'' [ '\\', '\\', '\''] (jsRep '\\' [ '\\', '\\'] text))

/-- Per-character form of esc on quote-free text: a colon becomes
    backslash-colon, anything else is kept. -/
def encEsc (x : Char) : List Char := if x = ':' then [ '\\', ':'] else [x]

/-- Per-character form of dt's escaping on quote-free colon-free text: a
    backslash is doubled, anything else is kept. -/
def encDt (x : Char) : List Char := if x = '\\' then [ '\\', '\\'] else [x]

/-- src/index.js (first variant) line 113: the question drawtext filter
    element, with the question passed through esc and spliced between single
    quotes; the font is the constant DejaVu path of line 105. -/
def questionFilter (question : List Char) : List Char :=
  "drawtext=fontfile=/usr/share/fonts/truetype/dejavu/DejaVuSans-Bold.ttf:text='".data
    ++ esc question
    ++ "':fontsize=48:fontcolor=yellow:x=(w-text_w)/2:y=h*0.35:enable='between(t,2,7)'".data

/-- Parsing an escaped drawtext text value back under the encoder's grammar
    rules.  The escaped text sits between single quotes; ffmpeg tokenizes it
    once at the graph level (terminators "[],;") and once more when the option
    value is extracted (pairs separator ":").  Returns the characters finally
    rendered literally, or none when a pass leaves unconsumed input (the
    enclosing grammar is broken). -/
def gParseQuoted (escaped : List Char) : Option (List Char) :=
  let r1 := avGetToken filterTermChars ( '\'' :: (escaped ++ [ '\'']))
  if r1.2 = [] then
    let r2 := avGetToken [ ':'] r1.1
    if r2.2 = [] then some r2.1 else none
  else none

/-- dropWhile is the identity when the head does not satisfy the predicate. -/
lemma dropWhile_no (p : Char → Bool) (l : List Char)
    (h : ∀ c, l.head? = some c → p c = false) : l.dropWhile p = l := by
  cases l with
  | nil => rfl
  | cons a as => simp [List.dropWhile_cons, h a rfl]

/-- Inside a quoted section the tokenizer copies quote-free content verbatim
    and the closing quote confirms it. -/
lemma avTok_quoted (term : List Char) (content : List Char)
    (h : ∀ c ∈ content, c ≠ '\'') :
    ∀ out e, avTokAux term .quoted (content ++ [ '\'']) out e = (out ++ content, []) := by
  induction content with
  | nil =>
    intro out e
    show avTokAux term .plain [] out out.length = (out ++ [], [])
    simp [avTokAux, List.take_length]
  | cons c cs ih =>
    intro out e
    have hc : c ≠ '\'' := h c (by simp)
    rw [List.cons_append]
    simp only [avTokAux]
    rw [if_neg hc]
    rw [ih (fun x hx => h x (by simp [hx])) (out ++ [c]) e]
    simp

/-- Entering a quoted section from the start of a token: the whole quoted
    quote-free content becomes the token and nothing is left over. -/
lemma avGetToken_quoted (term : List Char) (hq : '\'' ∉ term)
    (content : List Char) (h : ∀ c ∈ content, c ≠ '\'') :
    avGetToken term ( '\'' :: (content ++ [ '\''])) = (content, []) := by
  unfold avGetToken
  rw [dropWhile_no wsB _ (by intro c hc; rw [← Option.some.inj hc]; decide)]
  simp only [avTokAux]
  rw [if_neg hq, if_neg (by decide : ¬ ( '\'' : Char) = '\\')]
  show avTokAux term .quoted (content ++ [ '\'']) [] 0 = (content, [])
  simpa using avTok_quoted term content h [] 0

/-- The confirmed-length bookkeeping of avTokAux over a text written one
    character at a time: position counter n, confirmed length e. -/
def finE : Nat → Nat → List Char → Nat
  | _, e, [] => e
  | n, e, c :: rest => finE (n + 1) (if wsB c then e else n + 1) rest

/-- If the last character of the text is confirming (not whitespace), the
    final confirmed length covers the whole text. -/
lemma finE_eq_length :
    ∀ (text : List Char), text ≠ [] →
      (∀ c, text.getLast? = some c → wsB c = false) →
      ∀ n e, finE n e text = n + text.length := by
  intro text
  induction text with
  | nil => simp
  | cons c cs ih =>
    intro _ hlast n e
    cases cs with
    | nil =>
      have hc : wsB c = false := hlast c rfl
      simp [finE, hc]
    | cons d ds =>
      have h2 : ∀ x, (d :: ds).getLast? = some x → wsB x = false := by
        intro x hx
        exact hlast x (by simpa [List.getLast?_cons_cons] using hx)
      rw [finE, ih (by simp) h2]
      simp [List.length_cons]
      omega

/-- Running the tokenizer (not in a quote) over a character-wise encoded text:
    each character is either written through a backslash escape or plainly;
    the token is the decoded text up to the confirmed length, with no rest. -/
lemma avTok_encList (term : List Char) (enc : Char → List Char)
    (hbs : '\\' ∉ term) :
    ∀ (text : List Char),
      (∀ c ∈ text, (enc c = [ '\\', c] ∧ wsB c = false) ∨
        (enc c = [c] ∧ c ∉ term ∧ c ≠ '\\' ∧ c ≠ '\'')) →
      ∀ out e, avTokAux term .plain (encList enc text) out e
        = ((out ++ text).take (finE out.length e text), []) := by
  intro text
  induction text with
  | nil =>
    intro _ out e
    simp [encList, avTokAux, finE]
  | cons c cs ih =>
    intro h out e
    have ihcs := ih (fun x hx => h x (by simp [hx]))
    rcases h c (by simp) with ⟨henc, hws⟩ | ⟨henc, hterm, hbs2, hq⟩
    · rw [encList, henc]
      rw [List.cons_append, List.cons_append, List.nil_append]
      simp only [avTokAux]
      rw [if_neg hbs]
      show avTokAux term .plain (encList enc cs) (out ++ [c]) (out.length + 1)
        = ((out ++ c :: cs).take (finE out.length e (c :: cs)), [])
      rw [ihcs (out ++ [c]) (out.length + 1)]
      simp only [finE, hws, Bool.false_eq_true, if_false]
      simp
    · rw [encList, henc]
      rw [List.singleton_append]
      simp only [avTokAux]
      rw [if_neg hterm, if_neg hbs2, if_neg hq]
      rw [ihcs (out ++ [c]) (if wsB c then e else out.length + 1)]
      simp only [finE]
      simp

/-- Every character of an encoded text comes from the encoding of some
    character of the text. -/
lemma mem_encList {f : Char → List Char} :
    ∀ {x : Char} {l : List Char}, x ∈ encList f l → ∃ c ∈ l, x ∈ f c := by
  intro x l
  induction l with
  | nil => simp [encList]
  | cons c cs ih =>
    intro hx
    rw [encList] at hx
    rcases List.mem_append.mp hx with h | h
    · exact ⟨c, by simp, h⟩
    · rcases ih h with ⟨d, hd, hxd⟩
      exact ⟨d, by simp [hd], hxd⟩

/-- JavaScript replace is the identity when the pattern character is absent. -/
lemma jsRep_noop (c : Char) (r : List Char) :
    ∀ (s : List Char), (∀ x ∈ s, x ≠ c) → jsRep c r s = s := by
  intro s
  induction s with
  | nil => intro _; rfl
  | cons a as ih =>
    intro h
    have ha : a ≠ c := h a (by simp)
    have tail := ih (fun x hx => h x (by simp [hx]))
    simp only [jsRep, encList, if_neg ha] at *
    simp [tail]

/-- Core round trip: a character-wise escaped text, placed between single
    quotes, survives the graph-level pass and the option-value pass and comes
    back literally, provided its first and last characters are not whitespace
    (av_get_token trims unquoted whitespace at both ends of the value pass). -/
lemma gParseQuoted_encList (enc : Char → List Char) (text : List Char)
    (hgood : ∀ c ∈ text, (enc c = [ '\\', c] ∧ wsB c = false ∧ c ≠ '\'') ∨
      (enc c = [c] ∧ c ≠ ':' ∧ c ≠ '\\' ∧ c ≠ '\''))
    (hHead : text.head?.all (fun c => !wsB c) = true)
    (hLast : text.getLast?.all (fun c => !wsB c) = true) :
    gParseQuoted (encList enc text) = some text := by
  have hnq : ∀ x ∈ encList enc text, x ≠ '\'' := by
    intro x hx
    rcases mem_encList hx with ⟨c, hc, hxc⟩
    rcases hgood c hc with ⟨he, _hws, hq⟩ | ⟨he, _h1, _h2, hq⟩
    · rw [he] at hxc
      rcases List.mem_cons.mp hxc with h | h
      · rw [h]; decide
      · rw [List.mem_singleton] at h
        rw [h]; exact hq
    · rw [he] at hxc
      rw [List.mem_singleton] at hxc
      rw [hxc]; exact hq
  have hlvl1 : avGetToken filterTermChars ( '\'' :: (encList enc text ++ [ '\'']))
      = (encList enc text, []) :=
    avGetToken_quoted filterTermChars (by decide) _ hnq
  cases text with
  | nil =>
    simp only [encList] at hlvl1 ⊢
    rfl
  | cons c cs =>
    have hcw : wsB c = false := by
      have h := hHead
      rw [List.head?_cons] at h
      simpa using h
    have hHeadP : ∀ x, (encList enc (c :: cs)).head? = some x → wsB x = false := by
      intro x hx
      rcases hgood c (by simp) with ⟨he, _, _⟩ | ⟨he, _, _, _⟩ <;>
        rw [encList, he] at hx
      · rw [List.cons_append, List.head?_cons] at hx
        have h2 := Option.some.inj hx
        rw [← h2]; decide
      · rw [List.singleton_append, List.head?_cons] at hx
        have h2 := Option.some.inj hx
        rw [← h2]; exact hcw
    have hLastP : ∀ x, (c :: cs).getLast? = some x → wsB x = false := by
      intro x hx
      have h := hLast
      rw [hx] at h
      simpa using h
    have hlvl2 : avGetToken [ ':'] (encList enc (c :: cs)) = (c :: cs, []) := by
      unfold avGetToken
      rw [dropWhile_no wsB _ hHeadP]
      have hg : ∀ x ∈ c :: cs, (enc x = [ '\\', x] ∧ wsB x = false) ∨
          (enc x = [x] ∧ x ∉ ([ ':'] : List Char) ∧ x ≠ '\\' ∧ x ≠ '\'') := by
        intro x hxmem
        rcases hgood x hxmem with ⟨he, hws, _⟩ | ⟨he, hcol, hbs2, hq⟩
        · exact Or.inl ⟨he, hws⟩
        · exact Or.inr ⟨he, by simp [hcol], hbs2, hq⟩
      rw [avTok_encList [ ':'] enc (by decide) (c :: cs) hg [] 0]
      simp only [List.length_nil, List.nil_append]
      rw [finE_eq_length (c :: cs) (by simp) hLastP 0 0]
      simp
    simp only [gParseQuoted, hlvl1]
    simp [hlvl2]

set_option maxRecDepth 10000 in
/-- C1 counterexample: the escaping functions do not survive the encoder's
    filter-graph grammar on quote-bearing input.  esc renders "I'm" as "Im"
    and dt's escaping renders it as "I\m"; a colon makes dt's output
    untokenizable; and in the full question filter line of src/index.js the
    graph-level pass stops early inside the enable expression (nonempty rest),
    while a benign question consumes the whole line. -/
theorem c1_counterexample :
    gParseQuoted (esc "I'm".data) = some "Im".data
    ∧ gParseQuoted (dtSafe "I'm".data) = some "I\\m".data
    ∧ some "Im".data ≠ some "I'm".data
    ∧ some "I\\m".data ≠ some "I'm".data
    ∧ gParseQuoted (dtSafe "a:b".data) = none
    ∧ (parseFilter (questionFilter "I'm".data)).2.2 ≠ []
    ∧ (parseFilter (questionFilter "ok".data)).2.2 = [] := by
  refine ⟨rfl, rfl, by decide, by decide, rfl, by decide, rfl⟩

/-- C1 amended: the round trip holds exactly on the texts the escaping
    functions can handle.  esc (src/index.js line 98) round-trips any text
    containing colons or commas but no single quote, no backslash and no
    leading/trailing whitespace; dt's escaping (src/index.js lines 293-296)
    round-trips any text containing backslashes or commas but no single quote,
    no colon and no leading/trailing whitespace.  Texts containing a single
    quote are corrupted by both, a backslash corrupts esc and a colon corrupts
    dt (see the counterexample). -/
theorem c1_escaping_roundtrip_amended :
    (∀ text : List Char,
      (∀ c ∈ text, c ≠ '\'' ∧ c ≠ '\\') →
      text.head?.all (fun c => !wsB c) = true →
      text.getLast?.all (fun c => !wsB c) = true →
      gParseQuoted (esc text) = some text)
    ∧ (∀ text : List Char,
      (∀ c ∈ text, c ≠ '\'' ∧ c ≠ ':') →
      text.head?.all (fun c => !wsB c) = true →
      text.getLast?.all (fun c => !wsB c) = true →
      gParseQuoted (dtSafe text) = some text) := by
  constructor
  · intro text hgood hHead hLast
    have h1 : jsRep '\'' [ '\\', '\''] text = text :=
      jsRep_noop _ _ text (fun x hx => (hgood x hx).1)
    have h2 : esc text = encList encEsc text := by
      rw [esc, h1]; rfl
    rw [h2]
    have hg : ∀ c ∈ text, (encEsc c = [ '\\', c] ∧ wsB c = false ∧ c ≠ '\'') ∨
        (encEsc c = [c] ∧ c ≠ ':' ∧ c ≠ '\\' ∧ c ≠ '\'') := by
      intro c hc
      by_cases hcc : c = ':'
      · subst hcc
        exact Or.inl ⟨by decide, by decide, by decide⟩
      · exact Or.inr ⟨by simp [encEsc, hcc], hcc, (hgood c hc).2, (hgood c hc).1⟩
    exact gParseQuoted_encList encEsc text hg hHead hLast
  · intro text hgood hHead hLast
    have hb : jsRep '\\' [ '\\', '\\'] text = encList encDt text := rfl
    have hmem : ∀ x ∈ encList encDt text, x ≠ '\'' ∧ x ≠ ':' := by
      intro x hx
      rcases mem_encList hx with ⟨c, hc, hxc⟩
      by_cases hcb : c = '\\'
      · subst hcb
        rw [show encDt '\\' = [ '\\', '\\'] from by decide] at hxc
        rcases List.mem_cons.mp hxc with h | h
        · rw [h]; exact ⟨by decide, by decide⟩
        · rw [List.mem_singleton] at h
          rw [h]; exact ⟨by decide, by decide⟩
      · rw [show encDt c = [c] from by simp [encDt, hcb]] at hxc
        rw [List.mem_singleton] at hxc
        rw [hxc]
        exact ⟨(hgood c hc).1, (hgood c hc).2⟩
    have h1 : dtSafe text = encList encDt text := by
      rw [dtSafe, hb]
      rw [jsRep_noop _ _ _ (fun x hx => (hmem x hx).1)]
      rw [jsRep_noop _ _ _ (fun x hx => (hmem x hx).2)]
    rw [h1]
    have hg : ∀ c ∈ text, (encDt c = [ '\\', c] ∧ wsB c = false ∧ c ≠ '\'') ∨
        (encDt c = [c] ∧ c ≠ ':' ∧ c ≠ '\\' ∧ c ≠ '\'') := by
      intro c hc
      by_cases hcb : c = '\\'
      · subst hcb
        exact Or.inl ⟨by decide, by decide, by decide⟩
      · exact Or.inr ⟨by simp [encDt, hcb], (hgood c hc).2, hcb, (hgood c hc).1⟩
    exact gParseQuoted_encList encDt text hg hHead hLast

/-- C1 witness: the amended round-trip theorem at concrete inputs that
    contain a colon and a comma (esc) and a backslash and a comma (dt). -/
theorem c1_escaping_roundtrip_amended_witness :
    gParseQuoted (esc "why: yes, ok".data) = some "why: yes, ok".data
    ∧ gParseQuoted (dtSafe "a\\b, c".data) = some "a\\b, c".data := by
  constructor
  · exact c1_escaping_roundtrip_amended.1 "why: yes, ok".data
      (by decide) (by decide) (by decide)
  · exact c1_escaping_roundtrip_amended.2 "a\\b, c".data
      (by decide) (by decide) (by decide)

/-- A riddle record { question, answer }, as in data/riddles.json. -/
structure Riddle where
  question : String
  answer : String

/-- src/index.js lines 48-53: getRandomRiddle returns
    riddles[Math.floor(Math.random() * riddles.length)]; Math.random() yields
    a draw x with 0 <= x < 1, modelled here as a rational parameter. -/
def getRandomRiddle (riddles : List Riddle) (x : ℚ) : Option Riddle :=
  riddles.get? (Int.toNat ⌊x * (riddles.length : ℚ)⌋)

/-- C5: for every non-empty riddle list and every random draw 0 ≤ x < 1 the
    computed index Math.floor(x * N) lies in 0..N-1, so the selector returns
    an element of the list. -/
theorem c5_selector_returns_member (riddles : List Riddle) (x : ℚ)
    (hne : riddles ≠ []) (h0 : 0 ≤ x) (h1 : x < 1) :
    ∃ r, getRandomRiddle riddles x = some r ∧ r ∈ riddles := by
  have hlen : 0 < riddles.length := List.length_pos.mpr hne
  have hnn : (0 : ℚ) ≤ x * (riddles.length : ℚ) := by positivity
  have hfl : ⌊x * (riddles.length : ℚ)⌋ < (riddles.length : ℤ) := by
    rw [Int.floor_lt]
    push_cast
    calc x * (riddles.length : ℚ) < 1 * (riddles.length : ℚ) := by
          apply mul_lt_mul_of_pos_right h1
          exact_mod_cast hlen
      _ = (riddles.length : ℚ) := one_mul _
  have hidx : Int.toNat ⌊x * (riddles.length : ℚ)⌋ < riddles.length := by
    have h0f : 0 ≤ ⌊x * (riddles.length : ℚ)⌋ := Int.floor_nonneg.mpr hnn
    omega
  refine ⟨riddles.get ⟨Int.toNat ⌊x * (riddles.length : ℚ)⌋, hidx⟩, ?_, ?_⟩
  · exact List.get?_eq_get hidx
  · exact List.get_mem _ _ _

/-- C5 witness: the selector applied to a one-riddle list at draw 1/2. -/
theorem c5_selector_returns_member_witness :
    ∃ r, getRandomRiddle
        [⟨"I speak without a mouth and hear without ears. What am I?", "An echo"⟩]
        (1 / 2) = some r
      ∧ r ∈ [(⟨"I speak without a mouth and hear without ears. What am I?",
          "An echo"⟩ : Riddle)] :=
  c5_selector_returns_member _ _ (by simp) (by norm_num) (by norm_num)

/-- JavaScript whitespace (the ASCII part of \s, which covers trim, split and
    every text in the repository). -/
def jsWs (c : Char) : Bool :=
  c = ' ' || c = '\t' || c = '\n' || c = '\r' || c = '\x0b' || c = '\x0c'

/-- JavaScript text.split(/\s+/): maximal whitespace runs separate tokens;
    leading (or trailing) whitespace contributes an empty first (or last)
    token, as in JS.  The flag records being inside a whitespace run. -/
def splitWsAux : Bool → List Char → List Char → List (List Char)
  | false, [], cur => [cur.reverse]
  | false, c :: rest, cur =>
    if jsWs c then cur.reverse :: splitWsAux true rest []
    else splitWsAux false rest (c :: cur)
  | true, [], _ => [[]]
  | true, c :: rest, cur =>
    if jsWs c then splitWsAux true rest cur
    else splitWsAux false rest [c]

/-- JavaScript text.split(/\s+/). -/
def jsSplitWs (s : List Char) : List (List Char) := splitWsAux false s []

/-- JavaScript String.trim(). -/
def jsTrim (s : List Char) : List Char :=
  ((s.dropWhile jsWs).reverse.dropWhile jsWs).reverse

/-- Loop of src/unnamed/part_004 wrapText (lines 57-70): for each word, if
    (current + word).length > maxChars push current.trim() and reset, then
    append word plus a space; finally push current.trim() if truthy. -/
def wrapTextAux (maxChars : Nat) :
    List (List Char) → List Char → List (List Char) → List (List Char)
  | [], current, lines =>
    if jsTrim current = [] then lines else lines ++ [jsTrim current]
  | w :: ws, current, lines =>
    if maxChars < (current ++ w).length then
      wrapTextAux maxChars ws (w ++ [ ' ']) (lines ++ [jsTrim current])
    else
      wrapTextAux maxChars ws (current ++ w ++ [ ' ']) lines

/-- src/unnamed/part_004 lines 57-70: wrapText(text, maxChars). -/
def wrapText (text : List Char) (maxChars : Nat) : List (List Char) :=
  wrapTextAux maxChars (jsSplitWs text) [] []

/-- JavaScript text.split(' ') (single-character separator). -/
def splitCharAux (sep : Char) : List Char → List Char → List (List Char)
  | [], cur => [cur.reverse]
  | c :: rest, cur =>
    if c = sep then cur.reverse :: splitCharAux sep rest []
    else splitCharAux sep rest (c :: cur)

/-- JavaScript text.split(' '). -/
def jsSplitChar (sep : Char) (s : List Char) : List (List Char) :=
  splitCharAux sep s []

/-- src/server.js lines 31-44: the greedy word-wrap loop of generateImage,
    parametrized by the font metric (Jimp.measureText font). -/
def generateImageAux (measure : List Char → Nat) (maxWidth : Nat) :
    List (List Char) → List Char → List (List Char) → List (List Char)
  | [], currentLine, lines =>
    if currentLine = [] then lines else lines ++ [currentLine]
  | w :: ws, currentLine, lines =>
    if maxWidth < measure (if currentLine = [] then w
        else currentLine ++ [ ' '] ++ w) ∧ currentLine ≠ [] then
      generateImageAux measure maxWidth ws w (lines ++ [currentLine])
    else
      generateImageAux measure maxWidth ws
        (if currentLine = [] then w else currentLine ++ [ ' '] ++ w) lines

/-- src/server.js lines 24-44: the lines rasterized by generateImage; canvas
    width 1080 with margin 50 on both sides gives maxWidth = 980, words come
    from text.split(' '). -/
def generateImageLines (measure : List Char → Nat) (text : List Char) :
    List (List Char) :=
  generateImageAux measure 980 (jsSplitChar ' ' text) [] []

/-- dropWhile never lengthens a list. -/
lemma length_dropWhile_le2 (p : Char → Bool) (l : List Char) :
    (l.dropWhile p).length ≤ l.length := by
  induction l with
  | nil => simp
  | cons a as ih =>
    rw [List.dropWhile_cons]
    by_cases h : p a = true
    · rw [if_pos h]
      simp only [List.length_cons]
      omega
    · rw [if_neg h]

/-- Trimming a string that ends with a space removes at least one character. -/
lemma jsTrim_lt_of_last_space (s : List Char) (h : s.getLast? = some ' ') :
    (jsTrim s).length + 1 ≤ s.length := by
  have hne : s ≠ [] := by
    intro hnil
    rw [hnil] at h
    simp at h
  have hpos : 0 < s.length := List.length_pos.mpr hne
  have hlen1 : (s.dropWhile jsWs).length ≤ s.length := length_dropWhile_le2 jsWs s
  unfold jsTrim
  rw [List.length_reverse]
  cases hd : s.dropWhile jsWs with
  | nil =>
    simp
    omega
  | cons a as =>
    have hlast : (a :: as).getLast? = some ' ' := by
      have h2 : (s.takeWhile jsWs ++ (a :: as)).getLast? = some ' ' := by
        rw [← hd, List.takeWhile_append_dropWhile]
        exact h
      rwa [List.getLast?_append_cons] at h2
    have hrev : (a :: as).reverse.head? = some ' ' := by
      rw [List.head?_reverse]
      exact hlast
    cases hr : (a :: as).reverse with
    | nil => simp at hr
    | cons b bs =>
      rw [hr] at hrev
      have hb : b = ' ' := Option.some.inj hrev
      have hlen3 : bs.length = as.length := by
        have h3 := congrArg List.length hr
        simp at h3
        omega
      have h5 : as.length + 1 ≤ s.length := by
        rw [hd] at hlen1
        simpa using hlen1
      have h6 : List.dropWhile jsWs (b :: bs) = List.dropWhile jsWs bs := by
        rw [List.dropWhile_cons, hb]
        rw [if_pos (by decide : jsWs ' ' = true)]
      rw [h6]
      have h4 := length_dropWhile_le2 jsWs bs
      omega

/-- Invariant proof for the part_004 wrapText loop: if every word fits and the
    running current line always ends in a space within maxChars+1 characters,
    every emitted line fits. -/
lemma wrapTextAux_bound (maxChars : Nat) :
    ∀ (ws : List (List Char)) (cur : List Char) (lines : List (List Char)),
      (∀ w ∈ ws, w.length ≤ maxChars) →
      (cur = [] ∨ (cur.getLast? = some ' ' ∧ cur.length ≤ maxChars + 1)) →
      (∀ l ∈ lines, l.length ≤ maxChars) →
      ∀ l ∈ wrapTextAux maxChars ws cur lines, l.length ≤ maxChars := by
  intro ws
  induction ws with
  | nil =>
    intro cur lines _ hcur hlines l hl
    have htrim : (jsTrim cur).length ≤ maxChars := by
      rcases hcur with h | ⟨hsp, hlen⟩
      · rw [h]
        simp [jsTrim]
      · have := jsTrim_lt_of_last_space cur hsp
        omega
    simp only [wrapTextAux] at hl
    by_cases hz : jsTrim cur = []
    · rw [if_pos hz] at hl
      exact hlines l hl
    · rw [if_neg hz] at hl
      rcases List.mem_append.mp hl with h | h
      · exact hlines l h
      · rw [List.mem_singleton] at h
        rw [h]
        exact htrim
  | cons w ws ih =>
    intro cur lines hws hcur hlines l hl
    have hwlen : w.length ≤ maxChars := hws w (by simp)
    have hwstail : ∀ v ∈ ws, v.length ≤ maxChars := fun v hv => hws v (by simp [hv])
    have htrim : (jsTrim cur).length ≤ maxChars := by
      rcases hcur with h | ⟨hsp, hlen⟩
      · rw [h]
        simp [jsTrim]
      · have := jsTrim_lt_of_last_space cur hsp
        omega
    simp only [wrapTextAux] at hl
    by_cases hc : maxChars < (cur ++ w).length
    · rw [if_pos hc] at hl
      refine ih (w ++ [ ' ']) (lines ++ [jsTrim cur]) hwstail ?_ ?_ l hl
      · right
        constructor
        · simp
        · simp
          omega
      · intro v hv
        rcases List.mem_append.mp hv with h | h
        · exact hlines v h
        · rw [List.mem_singleton] at h
          rw [h]
          exact htrim
    · rw [if_neg hc] at hl
      have hc2 : (cur ++ w).length ≤ maxChars := Nat.not_lt.mp hc
      rw [List.length_append] at hc2
      refine ih (cur ++ w ++ [ ' ']) lines hwstail ?_ hlines l hl
      right
      refine ⟨by simp, ?_⟩
      simp
      omega

/-- Invariant proof for the server.js greedy wrap: whenever the current line
    is nonempty its measured width is within the maximum, so every pushed
    line fits. -/
lemma generateImageAux_bound (measure : List Char → Nat) (maxWidth : Nat) :
    ∀ (ws : List (List Char)) (cur : List Char) (lines : List (List Char)),
      (∀ w ∈ ws, measure w ≤ maxWidth) →
      (cur = [] ∨ measure cur ≤ maxWidth) →
      (∀ l ∈ lines, measure l ≤ maxWidth) →
      ∀ l ∈ generateImageAux measure maxWidth ws cur lines, measure l ≤ maxWidth := by
  intro ws
  induction ws with
  | nil =>
    intro cur lines _ hcur hlines l hl
    simp only [generateImageAux] at hl
    by_cases hc : cur = []
    · rw [if_pos hc] at hl
      exact hlines l hl
    · rw [if_neg hc] at hl
      rcases List.mem_append.mp hl with h | h
      · exact hlines l h
      · rw [List.mem_singleton] at h
        rw [h]
        rcases hcur with h' | h'
        · exact absurd h' hc
        · exact h'
  | cons w ws ih =>
    intro cur lines hws hcur hlines l hl
    have hwm : measure w ≤ maxWidth := hws w (by simp)
    have hwstail : ∀ v ∈ ws, measure v ≤ maxWidth := fun v hv => hws v (by simp [hv])
    simp only [generateImageAux] at hl
    by_cases hcond : maxWidth < measure (if cur = [] then w
        else cur ++ [ ' '] ++ w) ∧ cur ≠ []
    · rw [if_pos hcond] at hl
      refine ih w (lines ++ [cur]) hwstail (Or.inr hwm) ?_ l hl
      intro v hv
      rcases List.mem_append.mp hv with h | h
      · exact hlines v h
      · rw [List.mem_singleton] at h
        rw [h]
        rcases hcur with h' | h'
        · exact absurd h' hcond.2
        · exact h'
    · rw [if_neg hcond] at hl
      refine ih (if cur = [] then w else cur ++ [ ' '] ++ w) lines hwstail ?_ hlines l hl
      right
      by_cases hc : cur = []
      · rw [if_pos hc]
        exact hwm
      · have hnlt : ¬ maxWidth < measure (if cur = [] then w else cur ++ [ ' '] ++ w) :=
          fun hA => hcond ⟨hA, hc⟩
        omega

/-- A sample font metric (100 horizontal units per character), an instance of
    the universally quantified metric of the claim. -/
def measure100 (l : List Char) : Nat := 100 * l.length

/-- C6 counterexample: with the configured maxima (maxChars = 40 in part_004's
    generateImage, maxWidth = 980 in server.js's generateImage) a single word
    longer than the maximum becomes a line longer than the maximum; part_004's
    wrapText additionally emits an empty line before it. -/
theorem c6_counterexample :
    wrapText (List.replicate 41 'a') 40 = [[], List.replicate 41 'a']
    ∧ 40 < (List.replicate 41 'a').length
    ∧ generateImageLines measure100 "abcdefghij".data = ["abcdefghij".data]
    ∧ 980 < measure100 "abcdefghij".data := by
  refine ⟨by decide, by decide, by decide, by decide⟩

/-- C6 amended: no produced line exceeds the configured maximum provided every
    individual word of the split text is within the maximum (measured width at
    most 980 for server.js generateImage under any font metric; character count
    at most maxChars for part_004 wrapText).  A single over-long word yields an
    over-long line, see the counterexample. -/
theorem c6_wordwrap_amended :
    (∀ (measure : List Char → Nat) (text : List Char),
      (∀ w ∈ jsSplitChar ' ' text, measure w ≤ 980) →
      ∀ l ∈ generateImageLines measure text, measure l ≤ 980)
    ∧ (∀ (text : List Char) (maxChars : Nat),
      (∀ w ∈ jsSplitWs text, w.length ≤ maxChars) →
      ∀ l ∈ wrapText text maxChars, l.length ≤ maxChars) := by
  constructor
  · intro measure text h
    exact generateImageAux_bound measure 980 (jsSplitChar ' ' text) [] [] h
      (Or.inl rfl) (by simp)
  · intro text maxChars h
    exact wrapTextAux_bound maxChars (jsSplitWs text) [] [] h (Or.inl rfl) (by simp)

/-- C6 witness: the amended bound applied to the concrete text
    "one two three" with metric = character count (server variant, maximum
    980) and with maxChars = 8 (part_004 variant), at produced lines. -/
theorem c6_wordwrap_amended_witness :
    List.length "one two three".data ≤ 980 ∧ List.length "one two".data ≤ 8 := by
  constructor
  · exact c6_wordwrap_amended.1 List.length "one two three".data (by decide)
      "one two three".data (by decide)
  · exact c6_wordwrap_amended.2 "one two three".data 8 (by decide)
      "one two".data (by decide)

/-- The privacy-relevant fields of a youtube.videos.insert request body. -/
structure UploadRequest where
  title : String
  description : String
  categoryId : Option String
  privacyStatus : String

/-- src/index.js lines 152-179 (uploadToYouTube): snippet { title,
    description, categoryId: '24' }, status { privacyStatus: 'private' }. -/
def uploadToYouTube_index (_videoPath title description : String) : UploadRequest :=
  { title := title, description := description, categoryId := some "24",
    privacyStatus := "private" }

/-- src/server.js lines 70-81 (uploadVideo): snippet { title, description,
    categoryId: '27' }, status { privacyStatus: 'private' }. -/
def uploadVideo_server (_filePath title description : String) : UploadRequest :=
  { title := title, description := description, categoryId := some "27",
    privacyStatus := "private" }

/-- src/unnamed/part_003 lines 191-203 (uploadToYouTube): snippet { title,
    description, categoryId: '27' }, status { privacyStatus: 'private' }. -/
def uploadToYouTube_p3 (_filePath title description : String) : UploadRequest :=
  { title := title, description := description, categoryId := some "27",
    privacyStatus := "private" }

/-- src/unnamed/part_004 first file, lines 155-173 (uploadVideo): snippet
    { title, description }, status { privacyStatus: 'private' }. -/
def uploadVideo_p4cron (_videoPath title description : String) : UploadRequest :=
  { title := title, description := description, categoryId := none,
    privacyStatus := "private" }

/-- src/unnamed/part_004 second file, lines 377-390 (uploadVideo): snippet
    { title, description }, status { privacyStatus: 'private' }. -/
def uploadVideo_p4dyn (_videoPath title description : String) : UploadRequest :=
  { title := title, description := description, categoryId := none,
    privacyStatus := "private" }

/-- C7: in every variant's publish step the upload request carries
    privacyStatus 'private', for every video file, title and description. -/
theorem c7_upload_always_private (f t d : String) :
    (uploadToYouTube_index f t d).privacyStatus = "private"
    ∧ (uploadVideo_server f t d).privacyStatus = "private"
    ∧ (uploadToYouTube_p3 f t d).privacyStatus = "private"
    ∧ (uploadVideo_p4cron f t d).privacyStatus = "private"
    ∧ (uploadVideo_p4dyn f t d).privacyStatus = "private" :=
  ⟨rfl, rfl, rfl, rfl, rfl⟩

/-- src/unnamed/part_003 line 218: const title = question.length > 90 ?
    question.slice(0, 90) + '…' : question. -/
def bbdTitle (question : List Char) : List Char :=
  if question.length > 90 then question.take 90 ++ [ '…'] else question

/-- C10: the uploaded title equals the question when it has at most 90
    characters, otherwise the first 90 characters followed by one ellipsis,
    and in all cases its length is at most 91. -/
theorem c10_title_truncation (q : List Char) :
    (q.length ≤ 90 → bbdTitle q = q)
    ∧ (q.length > 90 → bbdTitle q = q.take 90 ++ [ '…'])
    ∧ (bbdTitle q).length ≤ 91 := by
  refine ⟨?_, ?_, ?_⟩
  · intro h
    rw [bbdTitle, if_neg (by omega)]
  · intro h
    rw [bbdTitle, if_pos h]
  · by_cases h : q.length > 90
    · rw [bbdTitle, if_pos h]
      simp [List.length_append, List.length_take]
    · rw [bbdTitle, if_neg h]
      omega

/-- C10 witness: the truncation theorem applied at a 100-character question
    and at a short question. -/
theorem c10_title_truncation_witness :
    bbdTitle (List.replicate 100 'a') = (List.replicate 100 'a').take 90 ++ [ '…']
    ∧ (bbdTitle (List.replicate 100 'a')).length ≤ 91
    ∧ bbdTitle "Short?".data = "Short?".data :=
  ⟨(c10_title_truncation (List.replicate 100 'a')).2.1 (by simp),
   (c10_title_truncation (List.replicate 100 'a')).2.2,
   (c10_title_truncation "Short?".data).1 (by decide)⟩

/-- An HTTP response: status code and JSON body as key/value pairs. -/
structure HttpResponse where
  status : Nat
  body : List (String × String)
deriving DecidableEq

/-- Outcomes of one src/server.js /make request: results of the three stages
    (generateImage, generateVideo, uploadVideo); Except.error carries the
    thrown message and the upload success carries result.id. -/
structure ServerMakeEnv where
  riddle : Riddle
  imageRes : Except String Unit
  videoRes : Except String Unit
  uploadRes : Except String String

/-- src/server.js lines 83-99: the /make handler.  temp_image.png and
    temp_video.mp4 are created by the successful stages; the two unlinkSync
    calls run only after the upload succeeded; any throw is answered 500
    { error } with no cleanup.  Returns the response together with the temp
    files remaining on disk afterwards. -/
def serverMake (env : ServerMakeEnv) : HttpResponse × List String :=
  match env.imageRes with
  | .error m => (⟨500, [("error", m)]⟩, [])
  | .ok _ =>
    match env.videoRes with
    | .error m => (⟨500, [("error", m)]⟩, ["temp_image.png"])
    | .ok _ =>
      match env.uploadRes with
      | .error m => (⟨500, [("error", m)]⟩, ["temp_image.png", "temp_video.mp4"])
      | .ok vid =>
        (⟨200, [("message", "Video uploaded successfully"), ("videoId", vid)]⟩, [])

/-- Outcomes of one src/index.js /make request: generateSpeech, createVideo
    (spawnSync ffmpeg) and uploadToYouTube. -/
structure IndexMakeEnv where
  riddle : Riddle
  speechRes : Except String Unit
  videoRes : Except String Unit
  uploadRes : Except String String

/-- src/index.js lines 184-218: handleRequest runs the stages inside
    try/finally — the finally block unlinks the speech and video files
    whenever they exist — and /make answers 200 with
    { question, answer, videoId } or 500 with { error }.  Returns the
    response and the temp files remaining on disk. -/
def indexMake (env : IndexMakeEnv) : HttpResponse × List String :=
  match env.speechRes with
  | .error m => (⟨500, [("error", m)]⟩, [])
  | .ok _ =>
    match env.videoRes with
    | .error m => (⟨500, [("error", m)]⟩, [])
    | .ok _ =>
      match env.uploadRes with
      | .error m => (⟨500, [("error", m)]⟩, [])
      | .ok vid =>
        (⟨200, [("question", env.riddle.question), ("answer", env.riddle.answer),
          ("videoId", vid)]⟩, [])

/-- Outcomes of one src/unnamed/part_004 (cron variant) /make request. -/
structure P4MakeEnv where
  riddle : Riddle
  voiceRes : Except String Unit
  imageRes : Except String Unit
  videoRes : Except String Unit
  uploadRes : Except String String

/-- src/unnamed/part_004 first file, lines 183-211: createAndUpload creates
    voice.mp3, then temp.png, then output.mp4, uploads, best-effort unlinks
    all three and returns { question, videoId }; the /make handler answers
    500 { error } on any throw (no cleanup on that path). -/
def part004Make (env : P4MakeEnv) : HttpResponse × List String :=
  match env.voiceRes with
  | .error m => (⟨500, [("error", m)]⟩, [])
  | .ok _ =>
    match env.imageRes with
    | .error m => (⟨500, [("error", m)]⟩, ["voice.mp3"])
    | .ok _ =>
      match env.videoRes with
      | .error m => (⟨500, [("error", m)]⟩, ["voice.mp3", "temp.png"])
      | .ok _ =>
        match env.uploadRes with
        | .error m =>
          (⟨500, [("error", m)]⟩, ["voice.mp3", "temp.png", "output.mp4"])
        | .ok vid =>
          (⟨200, [("question", env.riddle.question), ("videoId", vid)]⟩, [])

/-- src/index.js lines 96-147: createVideo runs ffmpeg via spawnSync with
    stdio 'inherit' — the encoder's stderr goes to the parent process and is
    never captured — and a non-zero exit throws 'ffmpeg failed with code N'.
    The stderr argument is what the encoder wrote; it is unused. -/
def createVideo_index (status : Nat) (_stderr : String) : Except String Unit :=
  if status ≠ 0 then Except.error ("ffmpeg failed with code " ++ Nat.repr status)
  else Except.ok ()

/-- src/unnamed/part_003 lines 174-180: the thrown message on a non-zero
    ffmpeg exit joins 'ffmpeg failed', the argument list, the captured
    STDERR (or '(empty)') and STDOUT (or '(empty)') with newlines. -/
def ffmpegFailMsg_p3 (args stderr stdout : String) : String :=
  "ffmpeg failed" ++ "\nARGS: " ++ args
    ++ "\nSTDERR: " ++ (if stderr = "" then "(empty)" else stderr)
    ++ "\nSTDOUT: " ++ (if stdout = "" then "(empty)" else stdout)

/-- src/unnamed/part_003 lines 135-186: createVideo reduced to its exit
    behaviour — spawnSync with encoding utf8 captures stderr/stdout, and a
    non-zero status throws the diagnostic message. -/
def createVideo_p3 (status : Nat) (args stderr stdout : String) :
    Except String Unit :=
  if status ≠ 0 then Except.error (ffmpegFailMsg_p3 args stderr stdout)
  else Except.ok ()

/-- Outcomes of one src/unnamed/part_003 /make request; the encoder stage is
    described by its exit status and captured streams. -/
structure P3MakeEnv where
  riddle : Riddle
  voiceRes : Except String Unit
  ffStatus : Nat
  ffArgs : String
  ffStderr : String
  ffStdout : String
  uploadRes : Except String String

/-- src/unnamed/part_003 lines 212-231: the /make handler; any throw is
    answered 500 { error: message }; success answers
    { question, answer, videoId }. -/
def part003Make (env : P3MakeEnv) : HttpResponse :=
  match env.voiceRes with
  | .error m => ⟨500, [("error", m)]⟩
  | .ok _ =>
    match createVideo_p3 env.ffStatus env.ffArgs env.ffStderr env.ffStdout with
    | .error m => ⟨500, [("error", m)]⟩
    | .ok _ =>
      match env.uploadRes with
      | .error m => ⟨500, [("error", m)]⟩
      | .ok vid => ⟨200, [("question", env.riddle.question),
          ("answer", env.riddle.answer), ("videoId", vid)]⟩

/-- The needle is an initial segment of the hay. -/
def pfx : List Char → List Char → Bool
  | [], _ => true
  | _ :: _, [] => false
  | a :: as, b :: bs => a = b && pfx as bs

/-- The needle occurs contiguously somewhere inside the hay. -/
def hasSub (needle : List Char) : List Char → Bool
  | [] => needle.isEmpty
  | c :: t => pfx needle (c :: t) || hasSub needle t

/-- A list is a prefix of itself extended to the right. -/
lemma pfx_append (x b : List Char) : pfx x (x ++ b) = true := by
  induction x with
  | nil => rfl
  | cons a as ih => simp [pfx, ih]

/-- The empty needle occurs everywhere. -/
lemma hasSub_nil (l : List Char) : hasSub [] l = true := by
  cases l with
  | nil => rfl
  | cons c t => simp [hasSub, pfx]

/-- A needle occurs in any hay of the shape a ++ needle ++ b. -/
lemma hasSub_append (x a b : List Char) : hasSub x (a ++ (x ++ b)) = true := by
  induction a with
  | nil =>
    rw [List.nil_append]
    cases x with
    | nil => exact hasSub_nil b
    | cons c cs =>
      have hp := pfx_append (c :: cs) b
      rw [List.cons_append] at hp ⊢
      simp [hasSub, hp]
  | cons d ds ih =>
    rw [List.cons_append]
    simp [hasSub, ih]

/-- C2 counterexample: in src/server.js a failing upload leaves both
    temp_image.png and temp_video.mp4 on disk while the handler answers 500 —
    the cleanup step does not run on the failure path. -/
theorem c2_counterexample :
    (serverMake ⟨⟨"Q?", "A"⟩, .ok (), .ok (), .error "upload failed"⟩).2
      = ["temp_image.png", "temp_video.mp4"]
    ∧ (serverMake ⟨⟨"Q?", "A"⟩, .ok (), .ok (),
        .error "upload failed"⟩).1.status = 500
    ∧ (serverMake ⟨⟨"Q?", "A"⟩, .ok (), .ok (), .error "upload failed"⟩).2 ≠ [] :=
  ⟨rfl, rfl, by decide⟩

/-- C2 amended: src/index.js's handleRequest removes its temp files in a
    finally block, so none remain after any outcome of the speech, encode and
    upload stages; in src/server.js's /make the unlink calls run only when
    every stage succeeds, and on a failure after image creation the files
    created so far remain on disk (see the counterexample). -/
theorem c2_cleanup_amended :
    (∀ env : IndexMakeEnv, (indexMake env).2 = [])
    ∧ (∀ (r : Riddle) (vid : String),
        (serverMake ⟨r, .ok (), .ok (), .ok vid⟩).2 = []) := by
  constructor
  · intro env
    rcases env with ⟨r, s, v, u⟩
    cases s <;> cases v <;> cases u <;> rfl
  · intro r vid
    rfl

/-- C3 counterexample: on full success src/server.js answers status 200 but
    the body is { message, videoId } — there is no question field. -/
theorem c3_counterexample :
    serverMake ⟨⟨"I speak without a mouth and hear without ears. What am I?",
        "An echo"⟩, .ok (), .ok (), .ok "abc123"⟩
      = (⟨200, [("message", "Video uploaded successfully"),
          ("videoId", "abc123")]⟩, [])
    ∧ "question" ∉ (serverMake ⟨⟨"I speak without a mouth and hear without ears. What am I?",
        "An echo"⟩, .ok (), .ok (), .ok "abc123"⟩).1.body.map Prod.fst :=
  ⟨rfl, by decide⟩

/-- C3 amended: when every stage succeeds, the part_004 variant answers 200
    with { question, videoId } (the selected riddle's question and the
    uploader's id) and index.js answers 200 with { question, answer, videoId };
    the server.js variant answers 200 with { message, videoId } instead. -/
theorem c3_success_response_amended (r : Riddle) (vid : String) :
    part004Make ⟨r, .ok (), .ok (), .ok (), .ok vid⟩
      = (⟨200, [("question", r.question), ("videoId", vid)]⟩, [])
    ∧ indexMake ⟨r, .ok (), .ok (), .ok vid⟩
      = (⟨200, [("question", r.question), ("answer", r.answer),
          ("videoId", vid)]⟩, [])
    ∧ (serverMake ⟨r, .ok (), .ok (), .ok vid⟩).1
      = ⟨200, [("message", "Video uploaded successfully"), ("videoId", vid)]⟩ :=
  ⟨rfl, rfl, rfl⟩

/-- C4 counterexample: in src/index.js stderr is not captured (stdio
    'inherit'); when the encoder exits 1 having written "boom" to stderr, the
    500 error field is 'ffmpeg failed with code 1', which does not contain
    the diagnostic output. -/
theorem c4_counterexample :
    indexMake ⟨⟨"Q?", "A"⟩, .ok (), createVideo_index 1 "boom", .ok "x"⟩
      = (⟨500, [("error", "ffmpeg failed with code 1")]⟩, [])
    ∧ hasSub "boom".data "ffmpeg failed with code 1".data = false :=
  ⟨by decide, by decide⟩

/-- C4 amended: in the part_003 variant a non-zero encoder exit yields a 500
    response whose error field contains the captured stderr (with '(empty)'
    substituted when stderr is empty); in index.js the error field is only
    'ffmpeg failed with code N', independent of what the encoder wrote. -/
theorem c4_stderr_amended :
    (∀ env : P3MakeEnv, env.voiceRes = Except.ok () → env.ffStatus ≠ 0 →
      (part003Make env).status = 500
      ∧ (part003Make env).body
          = [("error", ffmpegFailMsg_p3 env.ffArgs env.ffStderr env.ffStdout)]
      ∧ hasSub env.ffStderr.data
          (ffmpegFailMsg_p3 env.ffArgs env.ffStderr env.ffStdout).data = true)
    ∧ (∀ (status : Nat) (stderr : String), status ≠ 0 →
      createVideo_index status stderr
        = Except.error ("ffmpeg failed with code " ++ Nat.repr status)) := by
  constructor
  · intro env hvoice hst
    rcases env with ⟨r, v, st, args, serr, sout, u⟩
    simp only at hvoice hst
    subst hvoice
    have hcv : createVideo_p3 st args serr sout
        = Except.error (ffmpegFailMsg_p3 args serr sout) := by
      rw [createVideo_p3, if_pos hst]
    refine ⟨?_, ?_, ?_⟩
    · simp only [part003Make, hcv]
    · simp only [part003Make, hcv]
    · by_cases hse : serr = ""
      · subst hse
        simp only
        exact hasSub_nil _
      · have hmsg : (ffmpegFailMsg_p3 args serr sout).data
            = ("ffmpeg failed" ++ "\nARGS: " ++ args ++ "\nSTDERR: ").data
              ++ (serr.data
              ++ ("\nSTDOUT: " ++ (if sout = "" then "(empty)" else sout)).data) := by
          rw [ffmpegFailMsg_p3, if_neg hse]
          simp only [String.data_append, List.append_assoc]
        simp only
        rw [hmsg]
        exact hasSub_append _ _ _
  · intro status stderr h
    rw [createVideo_index, if_pos h]

/-- Decimal rendering of a JavaScript integer as interpolated by a template
    literal: big-endian decimal digits, '0' for zero. -/
def natChars (n : Nat) : List Char :=
  if n = 0 then [ '0'] else (Nat.digits 10 n).reverse.map Nat.digitChar

/-- src/index.js line 86 (generateSpeech): the temp audio basename
    speech_[Date.now()].mp3. -/
def indexSpeechPath (ts : Nat) : List Char :=
  "speech_".data ++ natChars ts ++ ".mp3".data

/-- src/index.js line 191 (handleRequest): the temp video basename
    video_[Date.now()].mp4. -/
def indexVideoPath (ts : Nat) : List Char :=
  "video_".data ++ natChars ts ++ ".mp4".data

/-- The temp file names of one src/index.js request, from the two Date.now()
    readings taken when the files are created. -/
def indexTempPaths (tsAudio tsVideo : Nat) : List (List Char) :=
  [indexSpeechPath tsAudio, indexVideoPath tsVideo]

/-- src/server.js lines 87-88: the temp file names of a /make request are the
    constants temp_image.png and temp_video.mp4, whatever the request's
    timestamp. -/
def serverTempPaths (_ts : Nat) : List (List Char) :=
  ["temp_image.png".data, "temp_video.mp4".data]

/-- digitChar is injective on digits below ten. -/
lemma digitChar_inj_lt :
    ∀ a < 10, ∀ b < 10, Nat.digitChar a = Nat.digitChar b → a = b := by decide

/-- Mapping digitChar over lists of digits below ten is injective. -/
lemma map_digitChar_inj :
    ∀ (l1 l2 : List Nat), (∀ d ∈ l1, d < 10) → (∀ d ∈ l2, d < 10) →
      l1.map Nat.digitChar = l2.map Nat.digitChar → l1 = l2 := by
  intro l1
  induction l1 with
  | nil =>
    intro l2 _ _ h
    cases l2 with
    | nil => rfl
    | cons b bs => simp at h
  | cons a as ih =>
    intro l2 h1 h2 h
    cases l2 with
    | nil => simp at h
    | cons b bs =>
      simp only [List.map_cons, List.cons.injEq] at h
      have hab : a = b := digitChar_inj_lt a (h1 a (by simp)) b (h2 b (by simp)) h.1
      rw [hab,
        ih bs (fun d hd => h1 d (by simp [hd])) (fun d hd => h2 d (by simp [hd])) h.2]

/-- The decimal rendering determines the number. -/
lemma natChars_inj (a b : Nat) (h : natChars a = natChars b) : a = b := by
  have key : ∀ m : Nat, m ≠ 0 → natChars m ≠ [ '0'] := by
    intro m hm hcontra
    rw [natChars, if_neg hm] at hcontra
    rw [List.map_reverse] at hcontra
    have h2 : (Nat.digits 10 m).map Nat.digitChar = [ '0'] := by
      have h3 := congrArg List.reverse hcontra
      rw [List.reverse_reverse] at h3
      rw [h3]
      rfl
    have hdig : Nat.digits 10 m = [0] :=
      map_digitChar_inj (Nat.digits 10 m) [0]
        (fun d hd => Nat.digits_lt_base (by norm_num) hd)
        (by intro d hd; simp at hd; omega) (by rw [h2]; rfl)
    have hm0 : m = 0 := by
      have h4 := Nat.ofDigits_digits 10 m
      rw [hdig] at h4
      simpa using h4.symm
    exact hm hm0
  by_cases ha : a = 0 <;> by_cases hb : b = 0
  · rw [ha, hb]
  · exfalso
    subst ha
    rw [show natChars 0 = [ '0'] from rfl] at h
    exact key b hb h.symm
  · exfalso
    subst hb
    rw [show natChars 0 = [ '0'] from rfl] at h
    exact key a ha h
  · rw [natChars, if_neg ha, natChars, if_neg hb, List.map_reverse,
      List.map_reverse] at h
    have h2 := congrArg List.reverse h
    rw [List.reverse_reverse, List.reverse_reverse] at h2
    have hdig : Nat.digits 10 a = Nat.digits 10 b :=
      map_digitChar_inj _ _ (fun d hd => Nat.digits_lt_base (by norm_num) hd)
        (fun d hd => Nat.digits_lt_base (by norm_num) hd) h2
    have h4 := Nat.ofDigits_digits 10 a
    rw [hdig, Nat.ofDigits_digits] at h4
    exact h4.symm

/-- Different audio timestamps give different speech paths. -/
lemma indexSpeechPath_inj (a b : Nat) (h : indexSpeechPath a = indexSpeechPath b) :
    a = b := by
  apply natChars_inj
  rw [indexSpeechPath, indexSpeechPath] at h
  exact List.append_cancel_left (List.append_cancel_right h)

/-- Different video timestamps give different video paths. -/
lemma indexVideoPath_inj (a b : Nat) (h : indexVideoPath a = indexVideoPath b) :
    a = b := by
  apply natChars_inj
  rw [indexVideoPath, indexVideoPath] at h
  exact List.append_cancel_left (List.append_cancel_right h)

/-- A speech path never equals a video path (different name prefixes). -/
lemma speech_ne_video (a v : Nat) : indexSpeechPath a ≠ indexVideoPath v := by
  intro h
  have h1 : indexSpeechPath a
      = 's' :: ("peech_".data ++ natChars a ++ ".mp3".data) := rfl
  have h2 : indexVideoPath v
      = 'v' :: ("ideo_".data ++ natChars v ++ ".mp4".data) := rfl
  rw [h1, h2] at h
  injection h with h3 _
  exact absurd h3 (by decide)

/-- C8 counterexample: src/server.js names its temp files with fixed
    constants; two requests with the distinct timestamps 1 and 2 still use
    exactly the same paths, so their path sets are not disjoint. -/
theorem c8_counterexample :
    serverTempPaths 1 = serverTempPaths 2
    ∧ "temp_image.png".data ∈ serverTempPaths 1
    ∧ "temp_image.png".data ∈ serverTempPaths 2
    ∧ ¬ List.Disjoint (serverTempPaths 1) (serverTempPaths 2) := by
  refine ⟨rfl, by decide, by decide, ?_⟩
  intro h
  exact h (a := "temp_image.png".data) (by decide) (by decide)

/-- C8 amended: src/index.js suffixes each temp file with the Date.now()
    reading taken when the file is created, so two requests whose audio and
    video timestamps differ use disjoint temp path sets; src/server.js uses
    the fixed names temp_image.png / temp_video.mp4 for every request, so
    distinct requests collide (see the counterexample). -/
theorem c8_timestamp_paths_amended (a1 v1 a2 v2 : Nat)
    (ha : a1 ≠ a2) (hv : v1 ≠ v2) :
    List.Disjoint (indexTempPaths a1 v1) (indexTempPaths a2 v2) := by
  intro p hp1 hp2
  simp only [indexTempPaths, List.mem_cons, List.not_mem_nil, or_false] at hp1 hp2
  rcases hp1 with h1 | h1 <;> rcases hp2 with h2 | h2
  · exact ha (indexSpeechPath_inj a1 a2 (h1.symm.trans h2))
  · exact speech_ne_video a1 v2 (h1.symm.trans h2)
  · exact speech_ne_video a2 v1 (h2.symm.trans h1)
  · exact hv (indexVideoPath_inj v1 v2 (h1.symm.trans h2))

/-- C8 witness: the amended disjointness at two concrete requests with
    timestamps (1000, 1001) and (2000, 2001). -/
theorem c8_timestamp_paths_amended_witness :
    List.Disjoint (indexTempPaths 1000 1001) (indexTempPaths 2000 2001) :=
  c8_timestamp_paths_amended 1000 1001 2000 2001 (by decide) (by decide)

/-- The tokens returned by a successful authorization-code exchange; the
    process-wide credential state of the OAuth client is Option Tokens. -/
structure Tokens where
  refreshToken : Option String
deriving DecidableEq

/-- src/server.js lines 111-127: the /oauth2callback handler.  A missing code
    answers 400; a failing getToken answers 500; on success setCredentials
    installs the tokens and the handler answers 200.  Returns the status and
    the credential state after the request. -/
def oauth2callback_server (code : Option String)
    (exchange : Except String Tokens) (creds : Option Tokens) :
    Nat × Option Tokens :=
  match code with
  | none => (400, creds)
  | some _ =>
    match exchange with
    | .error _ => (500, creds)
    | .ok tokens => (200, some tokens)

/-- src/unnamed/part_004 first file, lines 229-240 (the cron-enabled
    variant): the /oauth2callback handler only logs the refresh token and
    never calls setCredentials; a missing code answers 400, a failing
    exchange 500, success 200. -/
def oauth2callback_p4 (code : Option String)
    (exchange : Except String Tokens) (creds : Option Tokens) :
    Nat × Option Tokens :=
  match code with
  | none => (400, creds)
  | some _ =>
    match exchange with
    | .error _ => (500, creds)
    | .ok _ => (200, creds)

/-- C9: a throwing token exchange is answered 500 with the process-wide
    credentials unchanged, and setCredentials runs only after a successful
    exchange (server.js); the cron-enabled variant never mutates the
    credentials at all, for every code and exchange outcome. -/
theorem c9_oauth_callback_credentials (c e : String) (t : Tokens)
    (creds : Option Tokens) (exchange : Except String Tokens)
    (code : Option String) :
    oauth2callback_server (some c) (Except.error e) creds = (500, creds)
    ∧ oauth2callback_server (some c) (Except.ok t) creds = (200, some t)
    ∧ oauth2callback_server none exchange creds = (400, creds)
    ∧ (oauth2callback_p4 code exchange creds).2 = creds := by
  refine ⟨rfl, rfl, rfl, ?_⟩
  cases code with
  | none => rfl
  | some c2 => cases exchange <;> rfl

/-- C4 witness: the amended stderr theorem at a concrete part_003 request
    (encoder exit status 1, stderr "boom") and at index.js's createVideo. -/
theorem c4_stderr_amended_witness :
    (part003Make ⟨⟨"Q?", "A"⟩, Except.ok (), 1, "args", "boom", "",
        Except.error "n"⟩).status = 500
    ∧ hasSub "boom".data (ffmpegFailMsg_p3 "args" "boom" "").data = true
    ∧ createVideo_index 1 "boom"
        = Except.error ("ffmpeg failed with code " ++ Nat.repr 1) := by
  refine ⟨?_, ?_, ?_⟩
  · exact (c4_stderr_amended.1 ⟨⟨"Q?", "A"⟩, Except.ok (), 1, "args", "boom", "",
      Except.error "n"⟩ rfl (by decide)).1
  · exact (c4_stderr_amended.1 ⟨⟨"Q?", "A"⟩, Except.ok (), 1, "args", "boom", "",
      Except.error "n"⟩ rfl (by decide)).2.2
  · exact c4_stderr_amended.2 1 "boom" (by decide)
